import Mathlib

/-!
Verification development for the CLI session handler of rift-python
(`rift/cli_session_handler.py`).  The Python class `CliSessionHandler` is
embedded shallowly: its mutable attributes become the fields of
`SessionState`, each `process_*` method becomes a pure function from a
state to a new state plus a list of observable outputs, and the
recursive-descent command parser `parse_tokens` becomes a pure function
from tokens and a grammar tree to a list of parse events.
-/

set_option maxRecDepth 1000000
set_option maxHeartbeats 4000000

namespace RiftCli

/-! ## Constants (from the top of `cli_session_handler.py`) -/

def MAX_HISTORY : Nat := 100

/-! ## UTF-8 decoding

The source decodes the command buffer with `bytes.decode("utf-8", "ignore")`
(lines 395 and 519).  `decodeUtf8Ignore` models Python's UTF-8 decoder with
the `"ignore"` error handler: it produces the list of decoded code points,
silently dropping the bytes of every invalid or truncated sequence (an
invalid start byte is dropped alone; a sequence whose continuation byte is
wrong drops its consumed valid prefix and resumes at the offending byte).
`isValidUtf8` is the strict validity check: it is `true` exactly when the
byte list is well-formed UTF-8, i.e. when strict decoding would not raise.
-/

/-- A valid continuation byte (`0x80`–`0xBF`). -/
def utf8Cont (b : Nat) : Bool := 128 ≤ b && b ≤ 191

/-- Valid second byte of a three-byte sequence with lead byte `b`
(excludes overlong forms and surrogates, as Python's decoder does). -/
def utf8Cont2 (b b2 : Nat) : Bool :=
  if b = 224 then 160 ≤ b2 && b2 ≤ 191
  else if b = 237 then 128 ≤ b2 && b2 ≤ 159
  else 128 ≤ b2 && b2 ≤ 191

/-- Valid second byte of a four-byte sequence with lead byte `b`
(excludes overlong forms and code points above `U+10FFFF`). -/
def utf8Cont3 (b b2 : Nat) : Bool :=
  if b = 240 then 144 ≤ b2 && b2 ≤ 191
  else if b = 244 then 128 ≤ b2 && b2 ≤ 143
  else 128 ≤ b2 && b2 ≤ 191

/-- Worker for `decodeUtf8Ignore`, structurally recursive on a fuel that
bounds the number of decode steps.  Every step consumes at least one byte,
so fuel equal to the byte-list length (as supplied by `decodeUtf8Ignore`)
is always enough and the fuel-exhausted alternative is unreachable there. -/
def decodeUtf8IgnoreAux : Nat → List Nat → List Nat
  | 0, _ => []
  | _, [] => []
  | fuel + 1, b :: rest =>
    if b ≤ 127 then b :: decodeUtf8IgnoreAux fuel rest
    else if 194 ≤ b && b ≤ 223 then
      match rest with
      | [] => []
      | b2 :: rest2 =>
        if utf8Cont b2 then ((b - 192) * 64 + (b2 - 128)) :: decodeUtf8IgnoreAux fuel rest2
        else decodeUtf8IgnoreAux fuel rest
    else if 224 ≤ b && b ≤ 239 then
      match rest with
      | [] => []
      | b2 :: tail2 =>
        if utf8Cont2 b b2 then
          match tail2 with
          | [] => []
          | b3 :: rest3 =>
            if utf8Cont b3 then
              ((b - 224) * 4096 + (b2 - 128) * 64 + (b3 - 128)) :: decodeUtf8IgnoreAux fuel rest3
            else decodeUtf8IgnoreAux fuel tail2
        else decodeUtf8IgnoreAux fuel rest
    else if 240 ≤ b && b ≤ 244 then
      match rest with
      | [] => []
      | b2 :: tail2 =>
        if utf8Cont3 b b2 then
          match tail2 with
          | [] => []
          | b3 :: tail3 =>
            if utf8Cont b3 then
              match tail3 with
              | [] => []
              | b4 :: rest4 =>
                if utf8Cont b4 then
                  ((b - 240) * 262144 + (b2 - 128) * 4096 + (b3 - 128) * 64 + (b4 - 128))
                    :: decodeUtf8IgnoreAux fuel rest4
                else decodeUtf8IgnoreAux fuel tail3
            else decodeUtf8IgnoreAux fuel tail2
        else decodeUtf8IgnoreAux fuel rest
    else decodeUtf8IgnoreAux fuel rest

/-- Python `bytes.decode("utf-8", "ignore")`: decoded code points, with the
bytes of invalid sequences dropped. -/
def decodeUtf8Ignore (bs : List Nat) : List Nat :=
  decodeUtf8IgnoreAux bs.length bs

/-- Strict UTF-8 validity: `true` iff `bytes.decode("utf-8")` (no error
handler) would succeed on this byte list. -/
def isValidUtf8 : List Nat → Bool
  | [] => true
  | b :: rest =>
    if b ≤ 127 then isValidUtf8 rest
    else if 194 ≤ b && b ≤ 223 then
      match rest with
      | [] => false
      | b2 :: rest2 => utf8Cont b2 && isValidUtf8 rest2
    else if 224 ≤ b && b ≤ 239 then
      match rest with
      | [] => false
      | b2 :: tail2 =>
        utf8Cont2 b b2 &&
          match tail2 with
          | [] => false
          | b3 :: rest3 => utf8Cont b3 && isValidUtf8 rest3
    else if 240 ≤ b && b ≤ 244 then
      match rest with
      | [] => false
      | b2 :: tail2 =>
        utf8Cont3 b b2 &&
          match tail2 with
          | [] => false
          | b3 :: tail3 =>
            utf8Cont b3 &&
              match tail3 with
              | [] => false
              | b4 :: rest4 => utf8Cont b4 && isValidUtf8 rest4
    else false

/-- The source wraps the decode in `try/except UnicodeDecodeError`
(lines 394–397, 518–521).  Because the decode uses the `"ignore"` error
handler it can never raise, so the embedded decode always returns `ok`;
the `error` alternative corresponds to the `except` branch of the source. -/
def decodeCommandBuffer (bs : List Nat) : Except Unit (List Nat) :=
  Except.ok (decodeUtf8Ignore bs)

/-! ## Session state

Fields mirror the mutable attributes of `CliSessionHandler.__init__`.
File descriptors are `Option Nat`: `none` models the `None` assigned by
`close`.  Bytes are `Nat` (values 0–255 in reachable states).
-/

structure SessionState where
  rxFd : Option Nat
  txFd : Option Nat
  telnet : Bool
  telnetSuppressGoAhead : Bool
  telnetEcho : Bool
  inputBuffer : List Nat
  commandBuffer : List Nat
  commandBufferPos : Nat
  commandHistory : List (List Nat)
  commandHistoryPos : Option Nat
  deriving Repr, DecidableEq

/-- Observable outputs of the handler.  `bytes` is an `os.write` of raw
bytes to the tx descriptor (`send_bytes`), `msg` is a `self.print` of a
message string, `execute cmd help` is a dispatch of the decoded command
(list of code points) to `parse_command` with the given `context_help`
flag, and `prompt` is a `print_prompt` call. -/
inductive Out where
  | bytes (bs : List Nat)
  | msg (s : String)
  | execute (cmd : List Nat) (contextHelp : Bool)
  | prompt
  deriving Repr, DecidableEq

/-- Result of one `process_*` call: whether more input is needed (the
Python return value), the new state, and the emitted outputs. -/
structure Step where
  needMore : Bool
  state : SessionState
  out : List Out
  deriving Repr, DecidableEq

/-! ## Renderer helpers (the `send_*`, `echo_*` and `print` methods) -/

/-- `must_echo` (lines 310–318). -/
def mustEcho (s : SessionState) : Bool :=
  if s.telnet = false then true
  else if s.telnetEcho then true
  else false

/-- `send_bytes` (lines 305–308): a no-op once the tx descriptor is gone. -/
def sendBytes (s : SessionState) (bs : List Nat) : List Out :=
  if s.txFd = none then [] else [Out.bytes bs]

/-- `send_byte` (lines 302–303). -/
def sendByte (s : SessionState) (b : Nat) : List Out :=
  sendBytes s [b]

/-- `send_bell` (lines 295–296): BELL is byte 7. -/
def sendBell (s : SessionState) : List Out :=
  sendByte s 7

/-- Decimal ASCII digits of `n`, as emitted by `str(positions).encode()`. -/
def decimalBytes (n : Nat) : List Nat :=
  (toString n).toList.map Char.toNat

/-- `send_cursor_left` (lines 279–285): `ESC [ <n> D`. -/
def sendCursorLeft (s : SessionState) (positions : Nat) : List Out :=
  if positions = 0 then []
  else sendBytes s ([27, 91] ++ decimalBytes positions ++ [68])

/-- `send_cursor_right` (lines 287–293): `ESC [ <n> C`. -/
def sendCursorRight (s : SessionState) (positions : Nat) : List Out :=
  if positions = 0 then []
  else sendBytes s ([27, 91] ++ decimalBytes positions ++ [67])

/-- `send_erase_to_end_of_line` (lines 298–300): `ESC [ K`. -/
def sendEraseToEndOfLine (s : SessionState) : List Out :=
  sendBytes s [27, 91, 75]

/-- `echo_byte` (lines 320–322). -/
def echoByte (s : SessionState) (b : Nat) : List Out :=
  if mustEcho s then sendBytes s [b] else []

/-- `echo_bytes` (lines 324–326). -/
def echoBytes (s : SessionState) (bs : List Nat) : List Out :=
  if mustEcho s then sendBytes s bs else []

/-- `self.print msg` (lines 99–108): a no-op once the tx descriptor is
gone, otherwise emits the message (CRLF fixing is a rendering detail kept
inside the event). -/
def printMsg (s : SessionState) (m : String) : List Out :=
  if s.txFd = none then [] else [Out.msg m]

/-- `print_prompt` (lines 255–256), a `self.print` of the prompt string. -/
def printPrompt (s : SessionState) : List Out :=
  if s.txFd = none then [] else [Out.prompt]

/-- `refresh_command_from_pos` (lines 258–262). -/
def refreshCommandFromPos (s : SessionState) : List Out :=
  sendEraseToEndOfLine s ++
  sendBytes s (s.commandBuffer.drop s.commandBufferPos) ++
  sendCursorLeft s (s.commandBuffer.drop s.commandBufferPos).length

/-! ## Editor and history operations -/

/-- `process_cursor_to_start_of_line` (lines 477–482). -/
def processCursorToStartOfLine (s : SessionState) : Step :=
  if s.commandBufferPos > 0 then
    ⟨false, { s with commandBufferPos := 0 }, sendCursorLeft s s.commandBufferPos⟩
  else
    ⟨false, s, []⟩

/-- `process_cursor_to_end_of_line` (lines 484–489). -/
def processCursorToEndOfLine (s : SessionState) : Step :=
  if s.commandBufferPos < s.commandBuffer.length then
    ⟨false, { s with commandBufferPos := s.commandBuffer.length },
      sendCursorRight s (s.commandBuffer.length - s.commandBufferPos)⟩
  else
    ⟨false, s, []⟩

/-- `replace_command` (lines 264–269): cursor to start of line, erase,
install the new buffer, retransmit it, cursor to its end. -/
def replaceCommand (s : SessionState) (newCommand : List Nat) :
    SessionState × List Out :=
  let st := processCursorToStartOfLine s
  let s1 := st.state
  let out2 := sendEraseToEndOfLine s1
  let s2 := { s1 with commandBuffer := newCommand }
  let out3 := sendBytes s2 newCommand
  ({ s2 with commandBufferPos := newCommand.length }, st.out ++ out2 ++ out3)

/-- The `while len(...) > MAX_HISTORY` eviction loop of
`process_end_of_line` (lines 404–405): drop the oldest entry until the
history is within capacity. -/
def trimHistory : List (List Nat) → List (List Nat)
  | [] => []
  | e :: rest =>
    if (e :: rest).length > MAX_HISTORY then trimHistory rest
    else e :: rest

/-- `process_end_of_line` (lines 392–409). -/
def processEndOfLine (s : SessionState) : Step :=
  let out1 := echoBytes s [13, 10]
  let out2 :=
    match decodeCommandBuffer s.commandBuffer with
    | Except.error _ => printMsg s "UTF-8 decode of command failed"
    | Except.ok cmd => Out.execute cmd false :: printPrompt s
  let s1 :=
    if s.commandBuffer = [] then s
    else { s with
            commandHistory := trimHistory (s.commandHistory ++ [s.commandBuffer]),
            commandHistoryPos := none }
  ⟨false, { s1 with commandBuffer := [], commandBufferPos := 0 }, out1 ++ out2⟩

/-- `process_line_feed` (lines 380–381). -/
def processLineFeed (s : SessionState) : Step :=
  processEndOfLine s

/-- `process_carriage_return` (lines 383–390): defer if no byte follows,
otherwise swallow a following LF and complete the line. -/
def processCarriageReturn (s : SessionState) : Step :=
  match s.inputBuffer with
  | [] => ⟨true, s, []⟩
  | lf :: rest =>
    let s1 := if lf = 10 then { s with inputBuffer := rest } else s
    processEndOfLine s1

/-- `process_telnet_command` (lines 411–428): defer unless two bytes are
buffered; react only to DO (253) / DONT (254) for SUPPRESS-GO-AHEAD (3)
and ECHO (1). -/
def processTelnetCommand (s : SessionState) : Step :=
  match s.inputBuffer with
  | c :: o :: rest =>
    let s1 := { s with inputBuffer := rest }
    let s2 :=
      if c = 253 then
        let a := if o = 3 then { s1 with telnetSuppressGoAhead := true } else s1
        if o = 1 then { a with telnetEcho := true } else a
      else if c = 254 then
        let a := if o = 3 then { s1 with telnetSuppressGoAhead := false } else s1
        if o = 1 then { a with telnetEcho := false } else a
      else s1
    ⟨false, s2, []⟩
  | _ => ⟨true, s, []⟩

/-- `process_delete` (lines 430–441). -/
def processDelete (s : SessionState) : Step :=
  if s.commandBufferPos > 0 then
    let pos := s.commandBufferPos
    let s1 := { s with
                 commandBuffer := s.commandBuffer.take (pos - 1) ++ s.commandBuffer.drop pos,
                 commandBufferPos := pos - 1 }
    ⟨false, s1, sendCursorLeft s1 1 ++ refreshCommandFromPos s1⟩
  else
    ⟨false, s, sendBell s⟩

/-- `process_cursor_left` (lines 463–468). -/
def processCursorLeft (s : SessionState) : SessionState × List Out :=
  if s.commandBufferPos > 0 then
    ({ s with commandBufferPos := s.commandBufferPos - 1 }, sendCursorLeft s 1)
  else
    (s, sendBell s)

/-- `process_cursor_right` (lines 470–475). -/
def processCursorRight (s : SessionState) : SessionState × List Out :=
  if s.commandBufferPos < s.commandBuffer.length then
    ({ s with commandBufferPos := s.commandBufferPos + 1 }, sendCursorRight s 1)
  else
    (s, sendBell s)

/-- The tail of `process_prev_history` (lines 499–503): bell at index 0,
otherwise decrement the index and recall that entry. -/
def prevHistoryStep (s1 : SessionState) : SessionState × List Out :=
  match s1.commandHistoryPos with
  | some 0 => (s1, sendBell s1)
  | some (k + 1) =>
    replaceCommand { s1 with commandHistoryPos := some k } (s1.commandHistory.getD k [])
  | none => (s1, [])  -- unreachable: `processPrevHistory` always sets the position

/-- `process_prev_history` (lines 491–503).  When browsing has not
started, the index is first set to the history length and a non-empty
live buffer is appended (with no capacity check); then index 0 bells and
any other index is decremented and its entry recalled. -/
def processPrevHistory (s : SessionState) : SessionState × List Out :=
  if s.commandHistory = [] then (s, sendBell s)
  else
    let s1 :=
      if s.commandHistoryPos = none then
        let s' := { s with commandHistoryPos := some s.commandHistory.length }
        if s.commandBuffer = [] then s'
        else { s' with commandHistory := s'.commandHistory ++ [s.commandBuffer] }
      else s
    prevHistoryStep s1

/-- `process_next_history` (lines 505–514). -/
def processNextHistory (s : SessionState) : SessionState × List Out :=
  match s.commandHistoryPos with
  | none => (s, sendBell s)
  | some k =>
    let k1 := k + 1
    if k1 ≥ s.commandHistory.length then
      replaceCommand { s with commandHistoryPos := none } []
    else
      replaceCommand { s with commandHistoryPos := some k1 } (s.commandHistory.getD k1 [])

/-- `process_escape` (lines 443–461): defer unless two bytes are buffered;
swallow both; if the first is not `[` do nothing further, otherwise the
second selects a cursor move or a history step. -/
def processEscape (s : SessionState) : Step :=
  match s.inputBuffer with
  | c1 :: c2 :: rest =>
    let s1 := { s with inputBuffer := rest }
    if c1 ≠ 91 then ⟨false, s1, []⟩
    else if c2 = 68 then
      let r := processCursorLeft s1
      ⟨false, r.1, r.2⟩
    else if c2 = 67 then
      let r := processCursorRight s1
      ⟨false, r.1, r.2⟩
    else if c2 = 65 then
      let r := processPrevHistory s1
      ⟨false, r.1, r.2⟩
    else if c2 = 66 then
      let r := processNextHistory s1
      ⟨false, r.1, r.2⟩
    else ⟨false, s1, []⟩
  | _ => ⟨true, s, []⟩

/-- `process_question_mark` (lines 516–526): context-sensitive help for
the in-progress line, which is not consumed. -/
def processQuestionMark (s : SessionState) : Step :=
  let out1 := printMsg s ""
  let out2 :=
    match decodeCommandBuffer s.commandBuffer with
    | Except.error _ => printMsg s "UTF-8 decode of command failed"
    | Except.ok cmd => [Out.execute cmd true]
  let out3 := printPrompt s ++ sendBytes s s.commandBuffer ++
    sendCursorLeft s (s.commandBuffer.length - s.commandBufferPos)
  ⟨false, s, out1 ++ out2 ++ out3⟩

/-- `process_other` (lines 528–541): insert a literal byte at the cursor. -/
def processOther (s : SessionState) (b : Nat) : Step :=
  if s.commandBufferPos ≥ s.commandBuffer.length then
    ⟨false,
      { s with commandBuffer := s.commandBuffer ++ [b],
               commandBufferPos := s.commandBufferPos + 1 },
      echoByte s b⟩
  else
    let pos := s.commandBufferPos
    let s1 := { s with commandBuffer := s.commandBuffer.take pos ++ [b] ++ s.commandBuffer.drop pos }
    ⟨false, { s1 with commandBufferPos := pos + 1 },
      refreshCommandFromPos s1 ++ sendCursorRight s1 1⟩

/-! ## The byte-dispatch drain loop (`parse_input_bytes`, lines 347–379) -/

/-- The dispatch over one popped byte (the `if/elif` chain of
`parse_input_bytes`).  The byte has already been removed from the head of
the input buffer, exactly as in the source. -/
def dispatchByte (b : Nat) (s : SessionState) : Step :=
  if b = 0 then ⟨false, s, []⟩
  else if b = 10 then processLineFeed s
  else if b = 13 then processCarriageReturn s
  else if b = 1 then processCursorToStartOfLine s
  else if b = 5 then processCursorToEndOfLine s
  else if b = 14 then
    let r := processNextHistory s
    ⟨false, r.1, r.2⟩
  else if b = 16 then
    let r := processPrevHistory s
    ⟨false, r.1, r.2⟩
  else if b = 255 then processTelnetCommand s
  else if b = 127 then processDelete s
  else if b = 27 then processEscape s
  else if b = 63 then processQuestionMark s
  else processOther s b

/-- The drain loop, written with explicit fuel so that it is structurally
recursive.  Each iteration pops the head byte, dispatches it, and either
puts it back and stops (`needMore`) or continues.  One unit of fuel is
spent per popped byte, and a dispatch never lengthens the input buffer, so
fuel equal to the buffer length (as used by `parseInputBytes`) is always
enough; the fuel-exhausted alternative is unreachable there. -/
def drainLoopAux : Nat → SessionState → SessionState × List Out
  | 0, s => (s, [])
  | fuel + 1, s =>
    match s.inputBuffer with
    | [] => (s, [])
    | b :: rest =>
      let st := dispatchByte b { s with inputBuffer := rest }
      if st.needMore then
        ({ st.state with inputBuffer := b :: st.state.inputBuffer }, st.out)
      else
        let r := drainLoopAux fuel st.state
        (r.1, st.out ++ r.2)

/-- `parse_input_bytes` (lines 347–379). -/
def parseInputBytes (s : SessionState) : SessionState × List Out :=
  drainLoopAux s.inputBuffer.length s

/-! ## Session lifecycle -/

/-- `__init__` (lines 40–65): the state after construction, plus the
bytes sent during construction (the two unconditional Telnet WILL offers
for a network session) and the initial prompt. -/
def openSession (telnet : Bool) (rxFd txFd : Nat) : SessionState × List Out :=
  let s : SessionState :=
    { rxFd := some rxFd, txFd := some txFd, telnet := telnet,
      telnetSuppressGoAhead := false, telnetEcho := false,
      inputBuffer := [], commandBuffer := [], commandBufferPos := 0,
      commandHistory := [], commandHistoryPos := none }
  (s, (if telnet then sendBytes s [255, 251, 3] ++ sendBytes s [255, 251, 1] else []) ++
      printPrompt s)

/-- Process-level effects of `close` (lines 79–91): which descriptors are
released (`os.close`) and whether the hosting process exits (`sys.exit`). -/
structure CloseEffect where
  closedFds : List Nat
  processExit : Bool
  deriving Repr, DecidableEq

/-- `close` (lines 79–91): a network session releases its descriptors
(the tx descriptor only when distinct from the rx descriptor) and keeps
the process running; a local session exits the process. -/
def close (s : SessionState) : SessionState × CloseEffect :=
  if s.telnet then
    let r := s.rxFd.getD 0
    let t := s.txFd.getD 0
    ({ s with rxFd := none, txFd := none },
     ⟨if t = r then [r] else [r, t], false⟩)
  else
    (s, ⟨[], true⟩)

/-- `ready_to_read` (lines 335–345).  `readResult` is the outcome of the
`os.read`: `none` models a raised `OSError`-family exception, `some []` a
zero-length (EOF) read, and `some bs` newly arrived bytes. -/
def readyToRead (s : SessionState) (readResult : Option (List Nat)) :
    SessionState × List Out × Option CloseEffect :=
  match readResult with
  | none =>
    let (s', e) := close s
    (s', [], some e)
  | some [] =>
    let (s', e) := close s
    (s', [], some e)
  | some bs =>
    let (s', out) := parseInputBytes { s with inputBuffer := s.inputBuffer ++ bs }
    (s', out, none)

/-! ## The command grammar and the recursive-descent parser

The grammar (`parse_tree` in the source) is a Python dict whose leaves
are callables: `PTree.branch` models a dict node (an association list, in
dict insertion order) and `PTree.action id` models a callable leaf, the
opaque callback being identified by a number.  `callable(parse_subtree)`
corresponds to matching `PTree.action`.
-/

mutual
inductive PTree where
  | action (id : Nat)
  | branch (children : PChildren)
inductive PChildren where
  | nil
  | cons (key : String) (t : PTree) (rest : PChildren)
end

/-- The children of a dict node as a list of key/subtree items, in dict
insertion order (Python `parse_subtree.items()`). -/
def PChildren.toList : PChildren → List (String × PTree)
  | .nil => []
  | .cons k t rest => (k, t) :: rest.toList

/-- Build a dict node from a list of items (grammar notation helper). -/
def PChildren.ofList : List (String × PTree) → PChildren
  | [] => .nil
  | (k, t) :: rest => .cons k t (PChildren.ofList rest)

-- Size of a grammar tree, used as recursion fuel: it strictly exceeds
-- the size of every subtree.
mutual
def ptreeSize : PTree → Nat
  | .action _ => 1
  | .branch ch => 1 + pchildrenSize ch
def pchildrenSize : PChildren → Nat
  | .nil => 0
  | .cons _ t rest => 1 + ptreeSize t + pchildrenSize rest
end

/-- Observable events of a parse: `msg` is a `self.print`, and
`invoke id params` is a call of the action callback `id` with the command
handler and the session; `params = none` models the two-argument call
`command_function(self._command_handler, self)` made when the parameter
dict is empty, `params = some m` the three-argument call that also passes
the mapping `m` (lines 167–171). -/
inductive PEvent where
  | msg (s : String)
  | invoke (id : Nat) (params : Option (List (String × String)))
  deriving Repr, DecidableEq

/-- Whether an event is an action invocation. -/
def PEvent.isInvoke : PEvent → Bool
  | .invoke _ _ => true
  | _ => false

/-- `cs` is a prefix of `ds` (character-wise). -/
def charsIsPrefixOf : List Char → List Char → Bool
  | [], _ => true
  | _ :: _, [] => false
  | c :: cs, d :: ds => c = d && charsIsPrefixOf cs ds

/-- Python `s.startswith(pre)`. -/
def strStartsWith (s pre : String) : Bool :=
  charsIsPrefixOf pre.toList s.toList

/-- Lexicographic comparison of character lists by code point. -/
def charsLt : List Char → List Char → Bool
  | [], [] => false
  | [], _ :: _ => true
  | _ :: _, [] => false
  | c :: cs, d :: ds => c.toNat < d.toNat || (c = d && charsLt cs ds)

/-- Python string `<`: lexicographic by code point. -/
def strLt (a b : String) : Bool :=
  charsLt a.toList b.toList

/-- `token_key` (lines 125–131): the sort key of a grammar item, the
parameter sigil being stripped for ordering. -/
def tokenKey (p : String × PTree) : String :=
  if p.fst.length > 1 && strStartsWith p.fst "$" then p.fst.drop 1 else p.fst

/-- One step of stable insertion sort by `tokenKey`: the new element goes
before the first existing element whose key is not smaller, so elements
with equal keys keep their original relative order, as Python's stable
`sorted` does. -/
def insertByKey (x : String × PTree) : List (String × PTree) → List (String × PTree)
  | [] => [x]
  | y :: ys => if strLt (tokenKey y) (tokenKey x) then y :: insertByKey x ys else x :: y :: ys

/-- `sorted(parse_subtree.items(), key=self.token_key)` (line 137):
stable sort of the children by `tokenKey`. -/
def sortByKey : List (String × PTree) → List (String × PTree)
  | [] => []
  | x :: xs => insertByKey x (sortByKey xs)

/-- The `new_command_str` computation of `print_help_recursion`
(lines 138–143). -/
def helpCommandStr (commandStr k : String) : String :=
  if k = "" then commandStr
  else if strStartsWith k "$" then commandStr ++ k.drop 1 ++ " <" ++ k.drop 1 ++ "> "
  else commandStr ++ k ++ " "

/-- `print_help_recursion` (lines 133–144), structurally recursive on a
fuel bounding the recursion depth.  `printHelp` supplies `ptreeSize` of
the tree, which strictly exceeds the `ptreeSize` of every subtree, so the
fuel-exhausted alternative is unreachable there. -/
def printHelpRecursionAux : Nat → String → PTree → String → List PEvent
  | 0, _, _, _ => []
  | _ + 1, commandStr, .action _, pre => [.msg (pre ++ commandStr)]
  | fuel + 1, commandStr, .branch ch, pre =>
    ((sortByKey ch.toList).map
      (fun p => printHelpRecursionAux fuel (helpCommandStr commandStr p.fst) p.snd pre)).flatten

/-- `print_help` (lines 113–114). -/
def printHelp (normalizedParsed : String) (t : PTree) : List PEvent :=
  printHelpRecursionAux (ptreeSize t) "" t normalizedParsed

/-- `print_ambiguous_help` (lines 116–123).  Note that the source extends
one `prefix` variable across loop iterations, so each candidate's
expansion also carries the expansions of all previous candidates. -/
def printAmbiguousHelpGo (pre : String) : List (String × PTree) → List PEvent
  | [] => []
  | (k, sub) :: rest =>
    let pre' :=
      if strStartsWith k "$" then pre ++ k.drop 1 ++ " <" ++ k.drop 1 ++ "> "
      else pre ++ k ++ " "
    printHelpRecursionAux (ptreeSize sub) "" sub pre' ++ printAmbiguousHelpGo pre' rest

/-- First child bound to key `k` (Python `parse_subtree[k]`; `findAssoc k
ch ≠ none` is Python `k in parse_subtree`). -/
def findAssoc (k : String) : PChildren → Option PTree
  | .nil => none
  | .cons k' t rest => if k' = k then some t else findAssoc k rest

/-- `lookup_token_in_parse_subtree` (lines 241–247): all children whose
key has the token as a textual prefix, in dict order. -/
def lookupTokenInParseSubtree (token : String) (children : PChildren) :
    List (String × PTree) :=
  children.toList.filter (fun p => strStartsWith p.fst token)

/-- The match-classification step of `parse_tokens` (lines 194–205):
an exact keyword match short-circuits everything, then an exact parameter
match, then prefix candidates on both sides.  Returns
`(keyword_subsubtrees, param_subsubtrees)`. -/
def classifyToken (token : String) (children : PChildren) :
    List (String × PTree) × List (String × PTree) :=
  match findAssoc token children with
  | some t => ([(token, t)], [])
  | none =>
    match findAssoc ("$" ++ token) children with
    | some t => ([], [(token, t)])
    | none =>
      (lookupTokenInParseSubtree token children,
       lookupTokenInParseSubtree ("$" ++ token) children)

/-- Python dict assignment `parameters[name] = value`: overwrite in place
if the key exists, else append. -/
def updateAssoc (m : List (String × String)) (k v : String) : List (String × String) :=
  if m.any (fun p => p.fst = k) then
    m.map (fun p => if p.fst = k then (k, v) else p)
  else m ++ [(k, v)]

/-- The `tokens == []` branch of `parse_tokens` (lines 161–186): invoke a
reached action (unless in help mode), follow an explicit empty-key child,
or report missing input.  Once the token list is empty it stays empty, so
this branch only ever recurses into itself; it is structurally recursive
on a fuel bounding the descent depth, with `sizeOf` of the tree (supplied
by `parseTokens`) always sufficient. -/
def parseEmptyAux : Nat → PTree → String → List (String × String) → Bool → List PEvent
  | 0, _, _, _, _ => []
  | _ + 1, .action id, _, params, contextHelp =>
    if contextHelp then []
    else [.invoke id (if params = [] then none else some params)]
  | fuel + 1, .branch ch, normalizedParsed, params, contextHelp =>
    match findAssoc "" ch with
    | some sub =>
      if contextHelp then
        .msg "Possible completions:" :: printHelp normalizedParsed (.branch ch)
      else
        parseEmptyAux fuel sub normalizedParsed params contextHelp
    | none =>
      .msg "Missing input, possible completions:" :: printHelp normalizedParsed (.branch ch)

/-- `parse_tokens` (lines 159–239), structurally recursive on the token
list; the exhausted-token case is delegated to `parseEmptyAux`. -/
def parseTokens : List String → PTree → String → List (String × String) → Bool → List PEvent
  | [], t, normalizedParsed, params, contextHelp =>
    parseEmptyAux (ptreeSize t) t normalizedParsed params contextHelp
  | tok :: _, .action _, _, _, _ => [.msg ("Unexpected extra input: " ++ tok)]
  | tok :: rest, .branch ch, normalizedParsed, params, contextHelp =>
    let cls := classifyToken tok ch
    let allSub := cls.fst ++ cls.snd
    if allSub.length > 1 then
      .msg ("Ambiguous input \"" ++ tok ++ "\", candidates:") ::
        printAmbiguousHelpGo normalizedParsed allSub
    else
      match cls.fst with
      | [(kw, sub)] => parseTokens rest sub (normalizedParsed ++ kw ++ " ") params contextHelp
      | _ =>
        match cls.snd with
        | [(pname, sub)] =>
          match rest with
          | [] =>
            (if contextHelp then
              [PEvent.msg (normalizedParsed ++ pname ++ " <" ++ pname ++ ">")]
             else []) ++
            [PEvent.msg ("Missing value for parameter <" ++ pname ++ ">")]
          | value :: rest2 =>
            let pname' := if strStartsWith pname "$" then pname.drop 1 else pname
            parseTokens rest2 sub (normalizedParsed ++ value ++ " ")
              (updateAssoc params pname' value) contextHelp
        | _ =>
          .msg ("Unrecognized input \"" ++ tok ++ "\", expected:") ::
            printHelp normalizedParsed (.branch ch)

/-- Python whitespace for `str.split()` (ASCII range). -/
def isPySpace (c : Char) : Bool :=
  c = ' ' || c = '\t' || c = '\n' || c = '\r' || c.toNat = 11 || c.toNat = 12

/-- Worker for `tokenize`: split on whitespace runs, no empty tokens. -/
def tokenizeAux : List Char → List Char → List String
  | [], [] => []
  | [], acc => [String.mk acc.reverse]
  | c :: cs, acc =>
    if isPySpace c then
      match acc with
      | [] => tokenizeAux cs []
      | _ => String.mk acc.reverse :: tokenizeAux cs []
    else tokenizeAux cs (c :: acc)

/-- Python `command.split()` (line 147). -/
def tokenize (s : String) : List String :=
  tokenizeAux s.toList []

/-- `parse_command` (lines 146–149). -/
def parseCommand (t : PTree) (command : String) (contextHelp : Bool) : List PEvent :=
  let tokens := tokenize command
  if tokens ≠ [] || contextHelp then parseTokens tokens t "" [] contextHelp else []

/-! ## Theorems -/

/-- C6: Whenever a decode step defers (CR with no following byte
buffered, or ESC or IAC with fewer than two following bytes buffered),
the drain loop stops with the input buffer exactly equal to its contents
before that step — the dispatched byte is left at the head and no session
state (command buffer, cursor, history, negotiated flags) changes, and no
output is emitted — so the next invocation resumes decoding from that
same position. -/
theorem c6_defer_preserves_state (s : SessionState)
    (h : s.inputBuffer = [13] ∨
         (∃ rest, s.inputBuffer = 27 :: rest ∧ rest.length < 2) ∨
         (∃ rest, s.inputBuffer = 255 :: rest ∧ rest.length < 2)) :
    parseInputBytes s = (s, []) := by
  obtain ⟨rx, tx, tel, sga, echo, ib, cb, cbp, hist, hp⟩ := s
  simp only at h
  rcases h with h | ⟨rest, h, hlen⟩ | ⟨rest, h, hlen⟩
  · subst h; rfl
  · match rest, hlen with
    | [], _ => subst h; rfl
    | [x], _ => subst h; rfl
  · match rest, hlen with
    | [], _ => subst h; rfl
    | [x], _ => subst h; rfl

/-- Witness for C6: a session with a lone ESC buffered is left entirely
unchanged by the drain loop. -/
theorem c6_defer_preserves_state_witness :
    parseInputBytes { (openSession false 0 1).fst with inputBuffer := [27] } =
      ({ (openSession false 0 1).fst with inputBuffer := [27] }, []) :=
  c6_defer_preserves_state _ (Or.inr (Or.inl ⟨[], rfl, by decide⟩))

/-- C8: A failed (`none`) or zero-length read in `ready_to_read` triggers
`close`; for a network session, `close` releases each distinct descriptor
exactly once (input and output may be the same handle), keeps the hosting
process running, and leaves the session inert (both descriptors cleared,
all subsequent writes re no-ops); for a local session, `close` terminates
the hosting process. -/
theorem c8_close_on_failed_read (s : SessionState) (r : Option (List Nat)) (rx tx : Nat)
    (hr : r = none ∨ r = some []) (hrx : s.rxFd = some rx) (htx : s.txFd = some tx) :
    (readyToRead s r).2.2 = some (close s).2 ∧
    (readyToRead s r).1 = (close s).1 ∧
    (s.telnet = true →
      (close s).2.processExit = false ∧
      (∀ fd, (close s).2.closedFds.count fd = if fd = rx ∨ fd = tx then 1 else 0) ∧
      (close s).1.rxFd = none ∧ (close s).1.txFd = none ∧
      (∀ bs, sendBytes (close s).1 bs = []) ∧ (∀ m, printMsg (close s).1 m = [])) ∧
    (s.telnet = false → (close s).2.processExit = true ∧ (close s).1 = s) := by
  have hread : readyToRead s r = ((close s).1, [], some (close s).2) := by
    rcases hr with h | h <;> subst h <;> simp [readyToRead]
  refine ⟨by rw [hread], by rw [hread], ?_, ?_⟩
  · intro htel
    refine ⟨by simp [close, htel], ?_, by simp [close, htel], by simp [close, htel],
      fun bs => by simp [close, htel, sendBytes], fun m => by simp [close, htel, printMsg]⟩
    intro fd
    simp only [close, htel, if_true, hrx, htx, Option.getD_some]
    by_cases heq : tx = rx
    · subst heq
      simp only [if_pos rfl, List.count_cons, List.count_nil]
      split_ifs <;> simp_all
    · simp only [if_neg heq, List.count_cons, List.count_nil]
      split_ifs <;> simp_all
      all_goals omega
  · intro htel
    simp [close, htel]

/-- Witness for C8: a zero-length read on a network session whose two
descriptors coincide closes that one descriptor once and does not exit
the process. -/
theorem c8_close_on_failed_read_witness :
    (readyToRead (openSession true 4 4).fst (some [])).2.2 =
        some (close (openSession true 4 4).fst).2 ∧
      (close (openSession true 4 4).fst).2.processExit = false ∧
      (close (openSession true 4 4).fst).2.closedFds.count 4 = 1 := by
  have h := c8_close_on_failed_read (openSession true 4 4).fst (some []) 4 4
    (Or.inr rfl) rfl rfl
  refine ⟨h.1, (h.2.2.1 rfl).1, ?_⟩
  have hc := (h.2.2.1 rfl).2.1 4
  simpa using hc

/-- The session state produced by `replace_command`: the final state does
not depend on whether the cursor had to be moved first. -/
theorem replaceCommand_state (s : SessionState) (nc : List Nat) :
    (replaceCommand s nc).1 =
      { s with commandBuffer := nc, commandBufferPos := nc.length } := by
  simp only [replaceCommand, processCursorToStartOfLine]
  split
  all_goals rfl

/-- A Telnet command stream: each `(command, option)` pair delivered as
`IAC command option`. -/
def encodeTelnet : List (Nat × Nat) → List Nat
  | [] => []
  | (c, o) :: rest => 255 :: c :: o :: encodeTelnet rest

/-- Modelled from the spec: "for a Network session it [mustEcho] holds
exactly when the most recently received DO/DONT for the ECHO option was
DO (initially false)" — the fold that tracks the last DO/DONT directive
for option ECHO (1) over a received command stream. -/
def lastEchoDirective (cmds : List (Nat × Nat)) : Bool :=
  cmds.foldl
    (fun acc p =>
      if p.1 = 253 ∧ p.2 = 1 then true
      else if p.1 = 254 ∧ p.2 = 1 then false
      else acc) false

/-- Closed form of `process_telnet_command` on a buffer holding at least
two bytes: the command and option are consumed, DO/DONT for ECHO and
SUPPRESS-GO-AHEAD set/clear the corresponding flag, and every other
command (in particular WILL 251 and WONT 252) changes nothing else. -/
theorem processTelnetCommand_eq (s : SessionState) (c o : Nat) (rest : List Nat)
    (h : s.inputBuffer = c :: o :: rest) :
    processTelnetCommand s =
      ⟨false,
       { s with inputBuffer := rest,
                telnetEcho := if c = 253 ∧ o = 1 then true
                              else if c = 254 ∧ o = 1 then false
                              else s.telnetEcho,
                telnetSuppressGoAhead := if c = 253 ∧ o = 3 then true
                                         else if c = 254 ∧ o = 3 then false
                                         else s.telnetSuppressGoAhead },
       []⟩ := by
  obtain ⟨rx, tx, tel, sga, echo, ib, cb, cbp, hist, hp⟩ := s
  simp only at h
  subst h
  by_cases hc1 : c = 253 <;> by_cases hc2 : c = 254 <;>
    by_cases ho1 : o = 1 <;> by_cases ho3 : o = 3 <;>
    simp_all [processTelnetCommand]

/-- One non-deferring iteration of the drain loop. -/
theorem drainLoopAux_cons (fuel : Nat) (s : SessionState) (b : Nat) (rest : List Nat)
    (h : s.inputBuffer = b :: rest)
    (hnm : (dispatchByte b { s with inputBuffer := rest }).needMore = false) :
    drainLoopAux (fuel + 1) s =
      ((drainLoopAux fuel (dispatchByte b { s with inputBuffer := rest }).state).1,
       (dispatchByte b { s with inputBuffer := rest }).out ++
         (drainLoopAux fuel (dispatchByte b { s with inputBuffer := rest }).state).2) := by
  obtain ⟨rx, tx, tel, sga, echo, ib, cb, cbp, hist, hp⟩ := s
  simp only at h
  subst h
  simp [drainLoopAux, hnm]

/-- Draining a pure Telnet command stream updates the ECHO flag to the
last DO/DONT directive for option 1, starting from the current flag, and
leaves the connection kind unchanged. -/
theorem drainLoopAux_encodeTelnet (cmds : List (Nat × Nat)) :
    ∀ (fuel : Nat) (s : SessionState), s.inputBuffer = encodeTelnet cmds →
      cmds.length ≤ fuel →
      (drainLoopAux fuel s).1.telnetEcho =
        cmds.foldl
          (fun acc p =>
            if p.1 = 253 ∧ p.2 = 1 then true
            else if p.1 = 254 ∧ p.2 = 1 then false
            else acc) s.telnetEcho ∧
      (drainLoopAux fuel s).1.telnet = s.telnet := by
  induction cmds with
  | nil =>
    intro fuel s h _
    cases fuel with
    | zero => simp [drainLoopAux]
    | succ f =>
      simp only [encodeTelnet] at h
      obtain ⟨rx, tx, tel, sga, echo, ib, cb, cbp, hist, hp⟩ := s
      simp only at h
      subst h
      simp [drainLoopAux]
  | cons p rest ih =>
    intro fuel s h hf
    obtain ⟨c, o⟩ := p
    cases fuel with
    | zero => simp at hf
    | succ f =>
      simp only [encodeTelnet] at h
      have hstep : dispatchByte 255 { s with inputBuffer := c :: o :: encodeTelnet rest } =
          processTelnetCommand { s with inputBuffer := c :: o :: encodeTelnet rest } := rfl
      have hpt := processTelnetCommand_eq { s with inputBuffer := c :: o :: encodeTelnet rest }
        c o (encodeTelnet rest) rfl
      rw [drainLoopAux_cons f s 255 (c :: o :: encodeTelnet rest) h
        (by rw [hstep, hpt])]
      rw [hstep]
      have hrec := ih f
        ((processTelnetCommand { s with inputBuffer := c :: o :: encodeTelnet rest }).state)
        (by rw [hpt]) (by simpa using Nat.le_of_succ_le_succ hf)
      simp only [List.foldl_cons]
      rw [hpt] at hrec
      rw [hpt]
      exact ⟨hrec.1, hrec.2⟩

/-- Length of an encoded Telnet command stream. -/
theorem encodeTelnet_length (cmds : List (Nat × Nat)) :
    (encodeTelnet cmds).length = 3 * cmds.length := by
  induction cmds with
  | nil => rfl
  | cons p rest ih => obtain ⟨c, o⟩ := p; simp [encodeTelnet, ih]; ring

/-- C7: `must_echo` holds always for a local session, and for a network
session exactly when the most recently received DO/DONT for the ECHO
option was DO (initially false); a received DO/DONT toggles only the
negotiated flag of the named option (ECHO or SUPPRESS-GO-AHEAD), and a
received WILL/WONT (or any other command) leaves every field except the
consumed input bytes unchanged. -/
theorem c7_echo_policy :
    (∀ s : SessionState, s.telnet = false → mustEcho s = true) ∧
    (∀ s : SessionState, s.telnet = true → mustEcho s = s.telnetEcho) ∧
    (∀ rx tx, (openSession true rx tx).1.telnetEcho = false ∧
      (openSession true rx tx).1.telnetSuppressGoAhead = false) ∧
    (∀ s c o rest, s.inputBuffer = c :: o :: rest →
      processTelnetCommand s =
        ⟨false,
         { s with inputBuffer := rest,
                  telnetEcho := if c = 253 ∧ o = 1 then true
                                else if c = 254 ∧ o = 1 then false
                                else s.telnetEcho,
                  telnetSuppressGoAhead := if c = 253 ∧ o = 3 then true
                                           else if c = 254 ∧ o = 3 then false
                                           else s.telnetSuppressGoAhead },
         []⟩) ∧
    (∀ rx tx cmds,
      mustEcho (parseInputBytes
          { (openSession true rx tx).1 with inputBuffer := encodeTelnet cmds }).1 =
        lastEchoDirective cmds) := by
  refine ⟨?_, ?_, ?_, processTelnetCommand_eq, ?_⟩
  · intro s h; simp [mustEcho, h]
  · intro s h; simp only [mustEcho, h]; cases s.telnetEcho <;> simp
  · intro rx tx; exact ⟨rfl, rfl⟩
  · intro rx tx cmds
    have hd := drainLoopAux_encodeTelnet cmds
      (encodeTelnet cmds).length
      { (openSession true rx tx).1 with inputBuffer := encodeTelnet cmds }
      rfl (by rw [encodeTelnet_length]; omega)
    have hme : ∀ t : SessionState, t.telnet = true → mustEcho t = t.telnetEcho := by
      intro t ht
      simp only [mustEcho, ht]
      cases t.telnetEcho <;> simp
    have htel : (parseInputBytes
        { (openSession true rx tx).1 with inputBuffer := encodeTelnet cmds }).1.telnet = true :=
      hd.2
    rw [hme _ htel]
    exact hd.1

/-- Witness for C7: a local session echoes; DO-ECHO sets the flag; a
DO-ECHO then WONT then DONT-SGA stream leaves ECHO granted. -/
theorem c7_echo_policy_witness :
    mustEcho (openSession false 0 1).1 = true ∧
    (processTelnetCommand
        { (openSession true 0 1).1 with inputBuffer := [253, 1, 99] }).state.telnetEcho = true ∧
    mustEcho (parseInputBytes
        { (openSession true 0 1).1 with
          inputBuffer := encodeTelnet [(253, 1), (252, 1), (254, 3)] }).1 =
      lastEchoDirective [(253, 1), (252, 1), (254, 3)] := by
  refine ⟨c7_echo_policy.1 _ rfl, ?_, c7_echo_policy.2.2.2.2 0 1 _⟩
  rw [c7_echo_policy.2.2.2.1 _ 253 1 [99] rfl]
  simp

/-- C9: With non-empty history, `process_prev_history` from a live edit
(`commandHistoryPos = none`) moves the index to `length - 1` and recalls
that entry; from index `k+1` it strictly decreases the index to `k` and
replaces the line with entry `k`; at index 0 it only emits a bell and
changes nothing. -/
theorem c9_prev_history (s : SessionState) (hne : s.commandHistory ≠ []) :
    (s.commandHistoryPos = none →
      (processPrevHistory s).1.commandHistoryPos = some (s.commandHistory.length - 1) ∧
      (processPrevHistory s).1.commandBuffer =
        s.commandHistory.getD (s.commandHistory.length - 1) []) ∧
    (∀ k, s.commandHistoryPos = some (k + 1) →
      (processPrevHistory s).1.commandHistoryPos = some k ∧
      (processPrevHistory s).1.commandBuffer = s.commandHistory.getD k []) ∧
    (s.commandHistoryPos = some 0 →
      processPrevHistory s = (s, sendBell s)) := by
  obtain ⟨rx, tx, tel, sga, echo, ib, cb, cbp, hist, hp⟩ := s
  cases hist with
  | nil => exact absurd rfl hne
  | cons e hs =>
    cases hp with
    | none =>
      refine ⟨fun _ => ?_, fun k hk => by simp at hk, fun h0 => by simp at h0⟩
      by_cases hbuf : cb = []
      · subst hbuf
        constructor <;> simp [processPrevHistory, prevHistoryStep, replaceCommand_state]
      · constructor
        · simp [processPrevHistory, prevHistoryStep, hbuf, replaceCommand_state]
        · have hlt : hs.length < (e :: hs).length := by simp
          simp [processPrevHistory, prevHistoryStep, hbuf, replaceCommand_state]
          rw [show (e :: (hs ++ [cb])) = (e :: hs) ++ [cb] from rfl]
          rw [List.getElem?_append_left hlt, List.getElem?_eq_getElem hlt]
          rfl
    | some k =>
      cases k with
      | zero =>
        exact ⟨fun h => by simp at h, fun k' hk => by simp at hk,
          fun _ => by simp [processPrevHistory, prevHistoryStep]⟩
      | succ k' =>
        refine ⟨fun h => by simp at h, fun k'' hk => ?_, fun h0 => by simp at h0⟩
        have hkk : k' = k'' := by simpa using hk
        subst hkk
        constructor <;> simp [processPrevHistory, prevHistoryStep, replaceCommand_state]

/-- Witness for C9: with history `[[97]]` and a live edit, one Previous
lands on index 0 recalling `[97]`. -/
theorem c9_prev_history_witness :
    (processPrevHistory { (openSession false 0 1).fst with
        commandHistory := [[97]] }).1.commandHistoryPos = some 0 ∧
    (processPrevHistory { (openSession false 0 1).fst with
        commandHistory := [[97]] }).1.commandBuffer = [97] :=
  (c9_prev_history _ (by decide)).1 rfl

/-- C3 counterexample: the command buffer `[255]` is not valid UTF-8, yet
at line completion no decode-failure message is printed and the (lossily
decoded, here empty) command IS dispatched to the parser — the `except`
branch of the source is unreachable because the decode uses the
`"ignore"` error handler. -/
theorem c3_decode_failure_counterexample :
    isValidUtf8 [255] = false ∧
    (processEndOfLine
        { (openSession false 0 1).1 with commandBuffer := [255] }).out =
      [Out.bytes [13, 10], Out.execute [] false, Out.prompt] ∧
    Out.msg "UTF-8 decode of command failed" ∉
      (processEndOfLine { (openSession false 0 1).1 with commandBuffer := [255] }).out := by
  refine ⟨rfl, rfl, ?_⟩
  decide

/-- C3 (amended): at line completion the decode of the command buffer
never fails (the `"ignore"` error handler silently drops invalid bytes),
so for every buffer — valid text or not — no decode-failure message is
printed, the decoded command is dispatched to the parser, the prompt is
re-rendered, and the line is discarded (buffer cleared, cursor reset). -/
theorem c3_lossy_decode_dispatch (s : SessionState) (h : s.txFd ≠ none) :
    (processEndOfLine s).out =
      echoBytes s [13, 10] ++
        [Out.execute (decodeUtf8Ignore s.commandBuffer) false, Out.prompt] ∧
    Out.msg "UTF-8 decode of command failed" ∉ (processEndOfLine s).out ∧
    (processEndOfLine s).state.commandBuffer = [] ∧
    (processEndOfLine s).state.commandBufferPos = 0 := by
  refine ⟨?_, ?_, rfl, rfl⟩
  · show echoBytes s [13, 10] ++
      (Out.execute (decodeUtf8Ignore s.commandBuffer) false :: printPrompt s) = _
    rw [printPrompt, if_neg h]
  · simp only [processEndOfLine, decodeCommandBuffer, echoBytes, sendBytes, printPrompt]
    split_ifs <;> simp

/-- Witness for C3 (amended) at a concrete buffer containing an invalid
byte. -/
theorem c3_lossy_decode_dispatch_witness :
    (processEndOfLine
        { (openSession false 0 1).1 with commandBuffer := [104, 255] }).out =
      echoBytes { (openSession false 0 1).1 with commandBuffer := [104, 255] } [13, 10] ++
        [Out.execute (decodeUtf8Ignore [104, 255]) false, Out.prompt] :=
  (c3_lossy_decode_dispatch _ (by decide)).1

/-- The grammar `{"set": {"$value": Action(f)}}` of the claim, the
callback `f` being identified as action 0. -/
def setGrammar : PTree :=
  .branch (.cons "set" (.branch (.cons "$value" (.action 0) .nil)) .nil)

/-- C2 counterexample: with grammar `{"set": {"$value": Action(f)}}`, the
line `"set 42"` does NOT invoke `f`: a parameter key matches the
parameter NAME token, and its VALUE is taken from the following token, so
`"42"` matches neither a keyword nor a parameter and the parse aborts
with an unrecognized-input error. -/
theorem c2_set42_counterexample :
    parseCommand setGrammar "set 42" false =
      [PEvent.msg "Unrecognized input \"42\", expected:",
       PEvent.msg "set value <value> "] ∧
    (parseCommand setGrammar "set 42" false).all (fun e => !e.isInvoke) = true := by
  constructor
  · rfl
  · decide

/-- C2 (amended): with grammar `{"set": {"$value": Action(f)}}`, the line
`"set value 42"` invokes `f` with parameter mapping `{"value": "42"}`;
`"set"` alone reports a missing-input error and invokes no action;
`"set value"` reports the missing value for parameter `<value>`;
`"set value 42 extra"` reports an extra-input error; and `"set 42"`
reports an unrecognized-input error (see the counterexample). -/
theorem c2_set_value_grammar :
    parseCommand setGrammar "set value 42" false =
      [PEvent.invoke 0 (some [("value", "42")])] ∧
    parseCommand setGrammar "set" false =
      [PEvent.msg "Missing input, possible completions:",
       PEvent.msg "set value <value> "] ∧
    parseCommand setGrammar "set value" false =
      [PEvent.msg "Missing value for parameter <value>"] ∧
    parseCommand setGrammar "set value 42 extra" false =
      [PEvent.msg "Unexpected extra input: extra"] := by
  refine ⟨rfl, rfl, rfl, rfl⟩

/-- The grammar `{"x": Action}` with a parameterless action, identified
as action 7. -/
def xGrammar : PTree := .branch (.cons "x" (.action 7) .nil)

/-- C4 counterexample: an action reached with an EMPTY parameter mapping
is called without the mapping argument (`command_function(handler,
session)`, two arguments), not with an empty mapping. -/
theorem c4_empty_mapping_counterexample :
    parseCommand xGrammar "x" false = [PEvent.invoke 7 none] ∧
    PEvent.invoke 7 (some []) ∉ parseCommand xGrammar "x" false := by decide

/-- Help output contains no action invocation, at any fuel. -/
theorem printHelpRecursionAux_no_invoke (fuel : Nat) :
    ∀ (cs : String) (t : PTree) (pre : String),
      (printHelpRecursionAux fuel cs t pre).all (fun e => !e.isInvoke) = true := by
  induction fuel with
  | zero => intro cs t pre; rfl
  | succ f ih =>
    intro cs t pre
    cases t with
    | action id => rfl
    | branch ch =>
      simp only [printHelpRecursionAux, List.all_eq_true]
      intro e he
      rw [List.mem_flatten] at he
      obtain ⟨l, hl, hel⟩ := he
      rw [List.mem_map] at hl
      obtain ⟨p, _, rfl⟩ := hl
      have hall := ih (helpCommandStr cs p.1) p.2 pre
      rw [List.all_eq_true] at hall
      exact hall e hel

/-- Ambiguity help output contains no action invocation. -/
theorem printAmbiguousHelpGo_no_invoke :
    ∀ (cands : List (String × PTree)) (pre : String),
      (printAmbiguousHelpGo pre cands).all (fun e => !e.isInvoke) = true := by
  intro cands
  induction cands with
  | nil => intro pre; rfl
  | cons p rest ih =>
    intro pre
    obtain ⟨k, sub⟩ := p
    simp only [printAmbiguousHelpGo, List.all_append]
    rw [Bool.and_eq_true]
    exact ⟨printHelpRecursionAux_no_invoke _ _ _ _, ih _⟩

/-- In help mode the exhausted-token branch invokes no action, at any
fuel. -/
theorem parseEmptyAux_no_invoke (fuel : Nat) :
    ∀ (t : PTree) (normalizedParsed : String) (params : List (String × String)),
      (parseEmptyAux fuel t normalizedParsed params true).all (fun e => !e.isInvoke) = true := by
  induction fuel with
  | zero => intro t norm params; rfl
  | succ f ih =>
    intro t norm params
    cases t with
    | action id => rfl
    | branch ch =>
      simp only [parseEmptyAux]
      cases findAssoc "" ch with
      | some sub =>
        simp only [if_true, List.all_cons]
        exact printHelpRecursionAux_no_invoke _ _ _ _
      | none =>
        simp only [List.all_cons]
        exact printHelpRecursionAux_no_invoke _ _ _ _

/-- C4 (amended): when all tokens are consumed at an Action node outside
help mode, the callback is invoked with the command handler and the
session, the accumulated parameter mapping being passed as an additional
argument only when it is non-empty (an empty mapping is omitted, the
callback is called with two arguments); in help mode no parse ever
invokes an action. -/
theorem c4_action_invocation :
    (∀ (id : Nat) (normalizedParsed : String) (params : List (String × String)),
      parseTokens [] (.action id) normalizedParsed params false =
        [PEvent.invoke id (if params = [] then none else some params)]) ∧
    (∀ (tokens : List String) (t : PTree) (normalizedParsed : String)
        (params : List (String × String)),
      (parseTokens tokens t normalizedParsed params true).all (fun e => !e.isInvoke) = true) := by
  constructor
  · intro id norm params; rfl
  · have main : ∀ (n : Nat) (tokens : List String), tokens.length ≤ n →
        ∀ (t : PTree) (norm : String) (params : List (String × String)),
          (parseTokens tokens t norm params true).all (fun e => !e.isInvoke) = true := by
      intro n
      induction n with
      | zero =>
        intro tokens hlen t norm params
        have htok : tokens = [] := List.length_eq_zero.mp (Nat.le_zero.mp hlen)
        subst htok
        exact parseEmptyAux_no_invoke _ _ _ _
      | succ m ihm =>
        intro tokens hlen t norm params
        cases tokens with
        | nil => exact parseEmptyAux_no_invoke _ _ _ _
        | cons tok rest =>
          have hrest : rest.length ≤ m := by
            simp only [List.length_cons] at hlen; omega
          cases t with
          | action id => rfl
          | branch ch =>
            simp only [parseTokens]
            split
            · simp only [List.all_cons]
              exact printAmbiguousHelpGo_no_invoke _ _
            · split
              · exact ihm rest hrest _ _ _
              · split
                · split
                  · simp [PEvent.isInvoke]
                  · refine ihm _ ?_ _ _ _
                    rename_i value rest2
                    simp only [List.length_cons] at hrest ⊢
                    omega
                · simp only [List.all_cons, Bool.and_eq_true]
                  exact ⟨rfl, printHelpRecursionAux_no_invoke _ _ _ _⟩
    exact fun tokens t norm params => main tokens.length tokens le_rfl t norm params

/-- The children `{"show": Action(0), "shutdown": Action(1)}` of the
claim's example grammar. -/
def showShutdownChildren : PChildren :=
  .cons "show" (.action 0) (.cons "shutdown" (.action 1) .nil)

/-- The example grammar with keywords `show` and `shutdown`. -/
def showShutdownGrammar : PTree := .branch showShutdownChildren

/-- C5 counterexample: the token `"sho"` is NOT ambiguous for the grammar
with keywords `show` and `shutdown` — `"shutdown"` does not start with
`"sho"` — so it yields exactly one candidate and the parse invokes
`show`'s action. -/
theorem c5_sho_counterexample :
    ((classifyToken "sho" showShutdownChildren).1 ++
      (classifyToken "sho" showShutdownChildren).2).length = 1 ∧
    parseCommand showShutdownGrammar "sho" false = [PEvent.invoke 0 none] := by decide

/-- C5 (amended): match classification follows strict precedence — an
exact literal-keyword match is the unique match regardless of any partial
matches; otherwise an exact parameter-key match is unique; otherwise
prefix candidates are collected on both sides and a combined candidate
count above one aborts the parse as ambiguous.  For the grammar with
keywords `show` and `shutdown`: token `"sh"` (not `"sho"`, which is a
prefix of `show` alone and matches it uniquely) is ambiguous with two
candidates, `"show"` matches `show` exactly, and `"shu"` matches
`shutdown` uniquely. -/
theorem c5_match_precedence :
    (∀ (tok : String) (ch : PChildren) (t : PTree),
      findAssoc tok ch = some t → classifyToken tok ch = ([(tok, t)], [])) ∧
    (∀ (tok : String) (ch : PChildren) (t : PTree),
      findAssoc tok ch = none → findAssoc ("$" ++ tok) ch = some t →
      classifyToken tok ch = ([], [(tok, t)])) ∧
    (∀ (tok : String) (ch : PChildren),
      findAssoc tok ch = none → findAssoc ("$" ++ tok) ch = none →
      classifyToken tok ch =
        (lookupTokenInParseSubtree tok ch, lookupTokenInParseSubtree ("$" ++ tok) ch)) ∧
    (∀ (tok : String) (rest : List String) (ch : PChildren)
        (normalizedParsed : String) (params : List (String × String)),
      ((classifyToken tok ch).1 ++ (classifyToken tok ch).2).length > 1 →
      parseTokens (tok :: rest) (.branch ch) normalizedParsed params false =
        PEvent.msg ("Ambiguous input \"" ++ tok ++ "\", candidates:") ::
          printAmbiguousHelpGo normalizedParsed
            ((classifyToken tok ch).1 ++ (classifyToken tok ch).2)) ∧
    ((classifyToken "sh" showShutdownChildren).1 ++
      (classifyToken "sh" showShutdownChildren).2).length = 2 ∧
    parseCommand showShutdownGrammar "sh" false =
      [PEvent.msg "Ambiguous input \"sh\", candidates:",
       PEvent.msg "show ", PEvent.msg "show shutdown "] ∧
    parseCommand showShutdownGrammar "show" false = [PEvent.invoke 0 none] ∧
    parseCommand showShutdownGrammar "shu" false = [PEvent.invoke 1 none] := by
  refine ⟨?_, ?_, ?_, ?_, by decide, by decide, by decide, by decide⟩
  · intro tok ch t h; simp [classifyToken, h]
  · intro tok ch t h1 h2; simp [classifyToken, h1, h2]
  · intro tok ch h1 h2; simp [classifyToken, h1, h2]
  · intro tok rest ch norm params h
    simp only [parseTokens]
    rw [if_pos h]

/-- Witness for C5 (amended): exact-keyword classification at a concrete
grammar where the token is also a strict prefix of another keyword. -/
theorem c5_match_precedence_witness :
    classifyToken "show" showShutdownChildren = ([("show", .action 0)], []) :=
  c5_match_precedence.1 "show" showShutdownChildren (.action 0) rfl

/-- The i-th two-byte line content (all bytes are plain letters); lines
with distinct indices below 104 are distinct. -/
def lineBytes (i : Nat) : List Nat := [65 + i / 26, 65 + i % 26]

/-- 101 distinct completed lines, each terminated by LF. -/
def hundredOneLines : List Nat :=
  ((List.range 101).map (fun i => lineBytes (i + 1) ++ [10])).flatten

/-- C1 counterexample: after 100 completed non-empty lines the history
holds 100 entries; typing one byte and pressing Ctrl-P (Previous) then
appends the live-edit snapshot to history with NO capacity check
(line 498), so the history reaches 101 entries — more than 100 — through
decoder steps alone. -/
theorem c1_history_overflow_counterexample :
    (parseInputBytes { (openSession false 0 1).1 with
        inputBuffer := (List.replicate 100 [97, 10]).flatten ++ [97, 16] }).1.commandHistory.length
      = 101 := by decide

/-- The eviction loop always leaves at most `MAX_HISTORY` entries. -/
theorem trimHistory_length_le (h : List (List Nat)) :
    (trimHistory h).length ≤ MAX_HISTORY := by
  induction h with
  | nil => simp [trimHistory, MAX_HISTORY]
  | cons e rest ih =>
    simp only [trimHistory]
    split
    · exact ih
    · next hle => exact Nat.le_of_not_lt hle

/-- C1 (amended): line completion itself enforces the capacity — after
every completed non-empty line the history holds at most 100 entries, and
after 101 completed distinct non-empty lines (with no history navigation)
the history holds exactly 100 entries, the oldest line is no longer
present and the newest is.  Previous(), however, appends a snapshot of a
non-empty live edit without eviction and can push the history above 100
between completions (see the counterexample). -/
theorem c1_history_capacity :
    (∀ s : SessionState, s.commandBuffer ≠ [] →
      (processEndOfLine s).state.commandHistory.length ≤ MAX_HISTORY) ∧
    ((parseInputBytes { (openSession false 0 1).1 with
        inputBuffer := hundredOneLines }).1.commandHistory.length = 100 ∧
     lineBytes 1 ∉ (parseInputBytes { (openSession false 0 1).1 with
        inputBuffer := hundredOneLines }).1.commandHistory ∧
     lineBytes 101 ∈ (parseInputBytes { (openSession false 0 1).1 with
        inputBuffer := hundredOneLines }).1.commandHistory) := by
  constructor
  · intro s hne
    simp only [processEndOfLine]
    rw [if_neg hne]
    exact trimHistory_length_le _
  · exact ⟨by decide, by decide, by decide⟩

/-- Witness for C1 (amended): completing the non-empty line `[97]`
leaves the history within capacity. -/
theorem c1_history_capacity_witness :
    (processEndOfLine { (openSession false 0 1).1 with
        commandBuffer := [97] }).state.commandHistory.length ≤ MAX_HISTORY :=
  c1_history_capacity.1 _ (by decide)

/-- The byte values given their own dispatch alternative by
`parse_input_bytes` (lines 352–375): NUL, Ctrl-A, Ctrl-E, LF, CR, Ctrl-N,
Ctrl-P, ESC, `?`, DEL, IAC. -/
def interceptedBytes : List Nat := [0, 1, 5, 10, 13, 14, 16, 27, 63, 127, 255]

/-- The C10 invariant: neither the command buffer nor any history entry
contains an intercepted byte value. -/
def goodState (s : SessionState) : Prop :=
  (∀ b ∈ s.commandBuffer, b ∉ interceptedBytes) ∧
  (∀ e ∈ s.commandHistory, ∀ b ∈ e, b ∉ interceptedBytes)

/-- Eviction only drops entries. -/
theorem trimHistory_subset (l : List (List Nat)) : ∀ e ∈ trimHistory l, e ∈ l := by
  induction l with
  | nil => exact fun e he => he
  | cons x rest ih =>
    intro e he
    simp only [trimHistory] at he
    split at he
    · exact List.mem_cons_of_mem _ (ih e he)
    · exact he

/-- A recalled history entry (or the empty default) satisfies the byte
bound when all history entries do. -/
theorem good_getD (l : List (List Nat))
    (hl : ∀ e ∈ l, ∀ b ∈ e, b ∉ interceptedBytes) (k : Nat) :
    ∀ b ∈ l.getD k [], b ∉ interceptedBytes := by
  intro b hb
  rw [List.getD] at hb
  cases h : l.get? k with
  | none => rw [h] at hb; simp at hb
  | some v =>
    rw [h] at hb
    simp only [Option.getD_some] at hb
    exact hl v (List.get?_mem h) b hb

/-- Appending the command buffer to the history preserves the byte
bound. -/
theorem good_append_buffer (l : List (List Nat)) (cb : List Nat)
    (hl : ∀ e ∈ l, ∀ b ∈ e, b ∉ interceptedBytes)
    (hcb : ∀ b ∈ cb, b ∉ interceptedBytes) :
    ∀ e ∈ l ++ [cb], ∀ b ∈ e, b ∉ interceptedBytes := by
  intro e he
  rcases List.mem_append.mp he with h | h
  · exact hl e h
  · have he2 : e = cb := by simpa using h
    subst he2; exact hcb

/-- Line completion preserves the invariant. -/
theorem goodState_processEndOfLine (s : SessionState) (hs : goodState s) :
    goodState (processEndOfLine s).state := by
  refine ⟨fun b hb => absurd hb (List.not_mem_nil b), ?_⟩
  intro e he
  by_cases hne : s.commandBuffer = []
  · rw [show (processEndOfLine s).state.commandHistory = s.commandHistory from by
      simp only [processEndOfLine]; rw [if_pos hne]] at he
    exact hs.2 e he
  · rw [show (processEndOfLine s).state.commandHistory
        = trimHistory (s.commandHistory ++ [s.commandBuffer]) from by
      simp only [processEndOfLine]; rw [if_neg hne]] at he
    exact good_append_buffer _ _ hs.2 hs.1 e (trimHistory_subset _ e he)

/-- CR handling preserves the invariant. -/
theorem goodState_processCarriageReturn (s : SessionState) (hs : goodState s) :
    goodState (processCarriageReturn s).state := by
  cases hib : s.inputBuffer with
  | nil => simp only [processCarriageReturn, hib]; exact hs
  | cons lf rest =>
    simp only [processCarriageReturn, hib]
    apply goodState_processEndOfLine
    split
    · exact ⟨hs.1, hs.2⟩
    · exact hs

/-- Telnet negotiation preserves the invariant. -/
theorem goodState_processTelnetCommand (s : SessionState) (hs : goodState s) :
    goodState (processTelnetCommand s).state := by
  cases hib : s.inputBuffer with
  | nil => simp only [processTelnetCommand, hib]; exact hs
  | cons c rest =>
    cases rest with
    | nil => simp only [processTelnetCommand, hib]; exact hs
    | cons o rest2 =>
      rw [processTelnetCommand_eq s c o rest2 hib]
      exact ⟨hs.1, hs.2⟩

/-- `replace_command` preserves the invariant when the new buffer
satisfies the byte bound. -/
theorem goodState_replaceCommand (s : SessionState) (nc : List Nat) (hs : goodState s)
    (hnc : ∀ b ∈ nc, b ∉ interceptedBytes) : goodState (replaceCommand s nc).1 := by
  rw [replaceCommand_state]
  exact ⟨hnc, hs.2⟩

/-- The history-recall step preserves the invariant. -/
theorem goodState_prevHistoryStep (s1 : SessionState) (h : goodState s1) :
    goodState (prevHistoryStep s1).1 := by
  unfold prevHistoryStep
  split
  · exact h
  · exact goodState_replaceCommand _ _ ⟨h.1, h.2⟩ (good_getD _ h.2 _)
  · exact h

/-- History-previous preserves the invariant. -/
theorem goodState_processPrevHistory (s : SessionState) (hs : goodState s) :
    goodState (processPrevHistory s).1 := by
  simp only [processPrevHistory]
  split
  · exact hs
  · apply goodState_prevHistoryStep
    split
    · split
      · exact ⟨hs.1, hs.2⟩
      · exact ⟨hs.1, good_append_buffer _ _ hs.2 hs.1⟩
    · exact hs

/-- History-next preserves the invariant. -/
theorem goodState_processNextHistory (s : SessionState) (hs : goodState s) :
    goodState (processNextHistory s).1 := by
  simp only [processNextHistory]
  split
  · exact hs
  · split
    · exact goodState_replaceCommand _ _ ⟨hs.1, hs.2⟩ (by simp)
    · exact goodState_replaceCommand _ _ ⟨hs.1, hs.2⟩ (good_getD _ hs.2 _)

/-- Backspace-delete preserves the invariant. -/
theorem goodState_processDelete (s : SessionState) (hs : goodState s) :
    goodState (processDelete s).state := by
  unfold processDelete
  split
  · refine ⟨?_, hs.2⟩
    intro b hb
    rcases List.mem_append.mp hb with h | h
    · exact hs.1 b (List.take_subset _ _ h)
    · exact hs.1 b (List.drop_subset _ _ h)
  · exact hs

/-- Cursor-left preserves the invariant. -/
theorem goodState_processCursorLeft (s : SessionState) (hs : goodState s) :
    goodState (processCursorLeft s).1 := by
  unfold processCursorLeft
  split
  · exact ⟨hs.1, hs.2⟩
  · exact hs

/-- Cursor-right preserves the invariant. -/
theorem goodState_processCursorRight (s : SessionState) (hs : goodState s) :
    goodState (processCursorRight s).1 := by
  unfold processCursorRight
  split
  · exact ⟨hs.1, hs.2⟩
  · exact hs

/-- Escape-sequence handling preserves the invariant. -/
theorem goodState_processEscape (s : SessionState) (hs : goodState s) :
    goodState (processEscape s).state := by
  cases hib : s.inputBuffer with
  | nil => simp only [processEscape, hib]; exact hs
  | cons c1 rest =>
    cases rest with
    | nil => simp only [processEscape, hib]; exact hs
    | cons c2 rest2 =>
      simp only [processEscape, hib]
      split_ifs
      · exact ⟨hs.1, hs.2⟩
      · exact goodState_processCursorLeft _ ⟨hs.1, hs.2⟩
      · exact goodState_processCursorRight _ ⟨hs.1, hs.2⟩
      · exact goodState_processPrevHistory _ ⟨hs.1, hs.2⟩
      · exact goodState_processNextHistory _ ⟨hs.1, hs.2⟩
      · exact ⟨hs.1, hs.2⟩

/-- Literal-byte insertion preserves the invariant when the byte is not
an intercepted value. -/
theorem goodState_processOther (s : SessionState) (b : Nat) (hs : goodState s)
    (hb : b ∉ interceptedBytes) : goodState (processOther s b).state := by
  unfold processOther
  split
  · refine ⟨?_, hs.2⟩
    intro x hx
    rcases List.mem_append.mp hx with h | h
    · exact hs.1 x h
    · have hxb : x = b := by simpa using h
      subst hxb; exact hb
  · refine ⟨?_, hs.2⟩
    intro x hx
    rcases List.mem_append.mp hx with h | h
    · rcases List.mem_append.mp h with h2 | h2
      · exact hs.1 x (List.take_subset _ _ h2)
      · have hxb : x = b := by simpa using h2
        subst hxb; exact hb
    · exact hs.1 x (List.drop_subset _ _ h)

/-- The byte dispatch preserves the invariant: every intercepted byte has
its own handler, and only non-intercepted bytes reach `process_other`. -/
theorem goodState_dispatchByte (b : Nat) (s : SessionState) (hs : goodState s) :
    goodState (dispatchByte b s).state := by
  unfold dispatchByte
  split_ifs with h0 h10 h13 h1 h5 h14 h16 h255 h127 h27 h63
  · exact hs
  · exact goodState_processEndOfLine s hs
  · exact goodState_processCarriageReturn s hs
  · unfold processCursorToStartOfLine
    split
    · exact ⟨hs.1, hs.2⟩
    · exact hs
  · unfold processCursorToEndOfLine
    split
    · exact ⟨hs.1, hs.2⟩
    · exact hs
  · exact goodState_processNextHistory s hs
  · exact goodState_processPrevHistory s hs
  · exact goodState_processTelnetCommand s hs
  · exact goodState_processDelete s hs
  · exact goodState_processEscape s hs
  · exact hs
  · refine goodState_processOther s b hs ?_
    intro hmem
    simp only [interceptedBytes, List.mem_cons, List.not_mem_nil, or_false] at hmem
    rcases hmem with h | h | h | h | h | h | h | h | h | h | h <;> simp_all

/-- The drain loop preserves the invariant, for any fuel. -/
theorem goodState_drainLoopAux (fuel : Nat) :
    ∀ s : SessionState, goodState s → goodState (drainLoopAux fuel s).1 := by
  induction fuel with
  | zero => exact fun _ hs => hs
  | succ f ih =>
    intro s hs
    cases hib : s.inputBuffer with
    | nil => simp only [drainLoopAux, hib]; exact hs
    | cons b rest =>
      simp only [drainLoopAux, hib]
      have hg := goodState_dispatchByte b { s with inputBuffer := rest } ⟨hs.1, hs.2⟩
      split
      · exact ⟨hg.1, hg.2⟩
      · exact ih _ hg

/-- C10: For every input byte sequence fed to the decoder from a state
satisfying the invariant (as the freshly opened session does), the
command buffer never contains any of the specially dispatched byte
values NUL(0), Ctrl-A(1), Ctrl-E(5), LF(10), CR(13), Ctrl-N(14),
Ctrl-P(16), ESC(27), `?`(63), DEL(127), IAC(255), and since history
entries are former command buffers, neither does any history entry; in
particular a literal `?` can never be typed into a command line. -/
theorem c10_no_intercepted_bytes :
    (∀ (telnet : Bool) (rx tx : Nat), goodState (openSession telnet rx tx).1) ∧
    (∀ s : SessionState, goodState s → goodState (parseInputBytes s).1) := by
  constructor
  · intro telnet rx tx
    exact ⟨fun b hb => absurd hb (List.not_mem_nil b),
      fun e he => absurd he (List.not_mem_nil e)⟩
  · exact fun s hs => goodState_drainLoopAux _ s hs

/-- Witness for C10: draining a mixed byte sequence (letters, `?`, an
arrow-key escape sequence, a Telnet DO ECHO, a CR) from a fresh session
leaves the invariant intact. -/
theorem c10_no_intercepted_bytes_witness :
    goodState (parseInputBytes { (openSession false 0 1).1 with
      inputBuffer := [104, 63, 105, 27, 91, 65, 255, 253, 1, 13, 10] }).1 :=
  c10_no_intercepted_bytes.2 _ ⟨fun b hb => absurd hb (List.not_mem_nil b),
    fun e he => absurd he (List.not_mem_nil e)⟩

end RiftCli
